import Mathlib

/-!
Verification development for `binmerge-rs` (`src/main.rs`).

The source program is shallowly embedded here:
* strings are `List Char` (Rust `&str` contents; the Rust `\d` class is modelled as
  ASCII digits, which is what CUE sheets contain);
* the filesystem is a finite association list from paths to byte contents;
  `fs::metadata(..).len()` is the length of the stored contents;
* `u32` values are `Nat` with explicit `% 2^32` at every arithmetic step
  (release-profile wrapping semantics; a debug build would panic instead,
  and no claim below depends on the difference);
* fallible Rust code (`io::Result`, `.unwrap()` panics) becomes
  `Option`/`Except`: a `.unwrap()` on a failed value is an `Except.error`
  that aborts the whole modelled operation, exactly as a panic aborts it.
-/

set_option autoImplicit false

namespace Binmerge

/-! ## Regex models

`cuestamp_to_sectors` uses `(\d+):(\d+):(\d+)`; `get_bin_from_cue` uses
`FILE "(.*?)" BINARY`, `TRACK (\d+) ([^\s]*)` and `INDEX (\d+) (\d+:\d+:\d+)`.
All four are unanchored searches: the engine tries each start position from
the left and, at a given position, `\d+` / `[^\s]*` are maximal munch (greedy
with no profitable backtracking, since the following literal character is
never in the repeated class), while `(.*?)` is lazy (shortest capture whose
continuation matches). The models below reproduce exactly that. -/

/-- Greedy match of `(\d+):(\d+):(\d+)` anchored at the start of `l`,
returning the three captures. -/
def matchTimestampAt (l : List Char) : Option (List Char × List Char × List Char) :=
  let d1 := l.takeWhile Char.isDigit
  let r1 := l.dropWhile Char.isDigit
  if d1 = [] then none
  else if r1.head? = some ':' then
    let r2 := r1.tail
    let d2 := r2.takeWhile Char.isDigit
    let r3 := r2.dropWhile Char.isDigit
    if d2 = [] then none
    else if r3.head? = some ':' then
      let r4 := r3.tail
      let d3 := r4.takeWhile Char.isDigit
      if d3 = [] then none else some (d1, d2, d3)
    else none
  else none

/-- Unanchored search for `(\d+):(\d+):(\d+)`: leftmost start position wins
(`Regex::captures` semantics). -/
def searchTimestamp : List Char → Option (List Char × List Char × List Char)
  | [] => none
  | c :: rest =>
    match matchTimestampAt (c :: rest) with
    | some g => some g
    | none => searchTimestamp rest

/-- Numeric value of a digit string, as `str::parse` accumulates it. -/
def digitsToNat (l : List Char) : Nat :=
  l.foldl (fun acc c => acc * 10 + (c.toNat - 48)) 0

def U32_MAX : Nat := 4294967295

def U32_MOD : Nat := 4294967296

/-- Model of `str::parse::<u32>()` on a captured group: succeeds exactly on a
non-empty all-digit string whose value fits in `u32`. -/
def parseU32 (l : List Char) : Option Nat :=
  if l = [] then none
  else if l.all Char.isDigit then
    if digitsToNat l ≤ U32_MAX then some (digitsToNat l) else none
  else none

/-- Wrapping `u32` multiplication. -/
def u32mul (a b : Nat) : Nat := a * b % U32_MOD

/-- Wrapping `u32` addition. -/
def u32add (a b : Nat) : Nat := (a + b) % U32_MOD

/-- Model of `cuestamp_to_sectors` (`main.rs:65-76`): search the input for
`(\d+):(\d+):(\d+)`, parse the three captures as `u32`, and return
`frames + (seconds * 75) + (minutes * 60 * 75)` in `u32` arithmetic.
The error strings are the ones the source attaches with `map_err`/`ok_or`. -/
def cuestamp_to_sectors (timestamp : List Char) : Except String Nat :=
  match searchTimestamp timestamp with
  | none => Except.error "Timestamp does not match pattern"
  | some (g1, g2, g3) =>
    match parseU32 g1 with
    | none => Except.error "Invalid minutes"
    | some minutes =>
      match parseU32 g2 with
      | none => Except.error "Invalid seconds"
      | some seconds =>
        match parseU32 g3 with
        | none => Except.error "Invalid frames"
        | some frames =>
          Except.ok (u32add (u32add frames (u32mul seconds 75)) (u32mul (u32mul minutes 60) 75))

/-! ## Filesystem model

A finite association list from paths to byte contents. `fs::metadata` /
`File::open` succeed exactly on present paths; `metadata(..).len()` is the
length of the stored contents. -/

abbrev FS : Type := List (List Char × List Nat)

def FS.lookup : FS → List Char → Option (List Nat)
  | [], _ => none
  | (p, c) :: rest, q => if p = q then some c else FS.lookup rest q

def FS.insert (fs : FS) (p : List Char) (c : List Nat) : FS := (p, c) :: fs

/-! ## CUE line patterns -/

/-- The ASCII part of the Rust `\s` class: used by `[^\s]*` in the TRACK pattern. -/
def wsChar (c : Char) : Bool :=
  c = ' ' || c = '\t' || c = '\n' || c = '\r' || c = '\x0b' || c = '\x0c'

/-- Lazy `(.*?)" BINARY` continuation: the capture is everything before the
first occurrence of `" BINARY`; no such occurrence means no match here. -/
def fileCapAfter : List Char → Option (List Char)
  | [] => none
  | c :: rest =>
    if List.isPrefixOf "\" BINARY".data (c :: rest) then some []
    else
      match fileCapAfter rest with
      | some cap => some (c :: cap)
      | none => none

/-- Match of `FILE "(.*?)" BINARY` anchored at the start of `l`. -/
def matchFileAt (l : List Char) : Option (List Char) :=
  if List.isPrefixOf "FILE \"".data l then fileCapAfter (l.drop 6) else none

/-- Unanchored search for `FILE "(.*?)" BINARY` (`file_pattern.captures`). -/
def file_captures : List Char → Option (List Char)
  | [] => none
  | c :: rest =>
    match matchFileAt (c :: rest) with
    | some g => some g
    | none => file_captures rest

/-- Match of `TRACK (\d+) ([^\s]*)` anchored at the start of `l`. -/
def matchTrackAt (l : List Char) : Option (List Char × List Char) :=
  if List.isPrefixOf "TRACK ".data l then
    let r := l.drop 6
    let d := r.takeWhile Char.isDigit
    let r1 := r.dropWhile Char.isDigit
    if d = [] then none else
    match r1 with
    | ' ' :: r2 => some (d, r2.takeWhile (fun c => !wsChar c))
    | _ => none
  else none

/-- Unanchored search for `TRACK (\d+) ([^\s]*)` (`track_pattern.captures`). -/
def track_captures : List Char → Option (List Char × List Char)
  | [] => none
  | c :: rest =>
    match matchTrackAt (c :: rest) with
    | some g => some g
    | none => track_captures rest

/-- Match of `INDEX (\d+) (\d+:\d+:\d+)` anchored at the start of `l`; the second
capture is rebuilt from the three digit groups it consists of. -/
def matchIndexAt (l : List Char) : Option (List Char × List Char) :=
  if List.isPrefixOf "INDEX ".data l then
    let r := l.drop 6
    let d := r.takeWhile Char.isDigit
    let r1 := r.dropWhile Char.isDigit
    if d = [] then none else
    match r1 with
    | ' ' :: r2 =>
      match matchTimestampAt r2 with
      | some (a, b, c) => some (d, a ++ ':' :: b ++ ':' :: c)
      | none => none
    | _ => none
  else none

/-- Unanchored search for `INDEX (\d+) (\d+:\d+:\d+)` (`index_pattern.captures`). -/
def index_captures : List Char → Option (List Char × List Char)
  | [] => none
  | c :: rest =>
    match matchIndexAt (c :: rest) with
    | some g => some g
    | none => index_captures rest

/-! ## Data model (`struct Index`, `struct Track`, `struct BinFile`) -/

structure Index where
  id : Nat
  stamp : List Char
  file_offset : Nat
deriving DecidableEq

def Index.new (id : Nat) (stamp : List Char) (file_offset : Nat) : Index :=
  ⟨id, stamp, file_offset⟩

structure Track where
  num : Nat
  indexes : List Index
  track_type : List Char
  sectors : Option Nat
  file_offset : Option Nat
deriving DecidableEq

def Track.new (num : Nat) (track_type : List Char) : Track :=
  ⟨num, [], track_type, none, none⟩

structure BinFile where
  filename : List Char
  tracks : List Track
  size : Option Nat
deriving DecidableEq

/-- Model of `BinFile::new` (`main.rs:54-62`): `fs::metadata(&filepath)?.len()`
fails (`none`) when the path is absent; otherwise the entry carries the size. -/
def BinFile.new (fs : FS) (filepath : List Char) : Option BinFile :=
  match FS.lookup fs filepath with
  | none => none
  | some contents => some ⟨filepath, [], some contents.length⟩

/-- Model of `Path::new(cue_path).parent().unwrap().join(bin)` for the
relative Unix-style paths the claims use: keep everything up to and
including the last `/` of the CUE path and append the bin name. -/
def parentJoin (cue_path bin : List Char) : List Char :=
  ((cue_path.reverse.dropWhile (fun c => c ≠ '/')).reverse) ++ bin

/-- Model of `Vec::last_mut()`: apply `f` to the last element when there is one
(`if let Some(last) = v.last_mut()` — no element means no effect). -/
def updateLast {α : Type} : List α → (α → α) → List α
  | [], _ => []
  | [a], f => [f a]
  | a :: b :: rest, f => a :: updateLast (b :: rest) f

/-! ## The parser (`get_bin_from_cue`, `main.rs:101-179`)

One iteration of the `for line in reader.lines()` loop. The three patterns
are tried in source order with `continue` after a match; `.unwrap()` panics
become `Except.error`, which aborts the whole scan exactly as a panic does.
A line matching no pattern falls through and leaves the state unchanged. -/

def parseLine (fs : FS) (cue_path : List Char) (acc : List BinFile) (line : List Char) :
    Except String (List BinFile) :=
  match file_captures line with
  | some bin =>
    match BinFile.new fs (parentJoin cue_path bin) with
    | none => Except.error "panicked: BinFile::new unwrapped on a missing bin file"
    | some bf => Except.ok (acc ++ [bf])
  | none =>
    match track_captures line with
    | some (num, ty) =>
      match parseU32 num with
      | none => Except.error "panicked: track number unwrapped on a failed u32 parse"
      | some n =>
        Except.ok (updateLast acc fun bf => { bf with tracks := bf.tracks ++ [Track.new n ty] })
    | none =>
      match index_captures line with
      | some (num, stamp) =>
        match parseU32 num with
        | none => Except.error "panicked: index number unwrapped on a failed u32 parse"
        | some n =>
          match cuestamp_to_sectors stamp with
          | Except.error _ => Except.error "panicked: cuestamp_to_sectors unwrapped on an error"
          | Except.ok off =>
            Except.ok (updateLast acc fun bf =>
              { bf with tracks := updateLast bf.tracks fun tr =>
                  { tr with indexes := tr.indexes ++ [Index.new n stamp off] } })
      | none => Except.ok acc

def parseLines (fs : FS) (cue_path : List Char) :
    List (List Char) → List BinFile → Except String (List BinFile)
  | [], acc => Except.ok acc
  | l :: rest, acc =>
    match parseLine fs cue_path acc l with
    | Except.error e => Except.error e
    | Except.ok acc2 => parseLines fs cue_path rest acc2

/-- Model of `get_bin_from_cue` after the CUE sheet has been opened and read
into lines: scan the lines from an empty `bin_files` vector. (Opening and
reading the sheet is the I/O layer `File::open(cue_path)?` /
`reader.lines()`; a failure there is the only `io::Result` error path.) -/
def get_bin_from_cue (fs : FS) (cue_path : List Char) (lines : List (List Char)) :
    Except String (List BinFile) :=
  parseLines fs cue_path lines []

def isOkB {ε α : Type} : Except ε α → Bool
  | Except.ok _ => true
  | Except.error _ => false

/-- A line that does not make the scan panic: its FILE target exists, its
TRACK/INDEX number parses as `u32`, and its INDEX stamp converts. -/
def lineOk (fs : FS) (cue_path : List Char) (line : List Char) : Bool :=
  match file_captures line with
  | some bin => (BinFile.new fs (parentJoin cue_path bin)).isSome
  | none =>
    match track_captures line with
    | some (num, _) => (parseU32 num).isSome
    | none =>
      match index_captures line with
      | some (num, stamp) => (parseU32 num).isSome && isOkB (cuestamp_to_sectors stamp)
      | none => true

/-- No open track entry: either no bin file yet, or the most recent bin file
has no tracks (the nested `last_mut()` at `main.rs:156-157` finds nothing). -/
def noOpenTrack (acc : List BinFile) : Bool :=
  match acc.getLast? with
  | none => true
  | some bf => bf.tracks.isEmpty

/-! ## The merger (`merge_files`, `main.rs:221-241`) -/

def chunksize : Nat := 1024 * 1024

/-- The `while let Ok(bytes_read) = infile.read(&mut buffer)` loop: repeatedly
write the next chunk of up to `chunksize` bytes until a read returns 0. -/
def copy_chunks : List Nat → List Nat
  | [] => []
  | b :: rest =>
    (b :: rest).take chunksize ++ copy_chunks ((b :: rest).drop chunksize)
termination_by l => l.length
decreasing_by
  simp only [List.length_drop, List.length_cons, chunksize]
  omega

inductive MergeResult : Type where
  | ok (success : Bool)
  | sourceNotFound
deriving DecidableEq

/-- The `for file in files` loop of `merge_files`: open each source (failure
propagates, leaving the partial target in place) and append its chunks to
the target `merged`. Sources are looked up in the current filesystem, which
already contains the partially written target. -/
def merge_loop (merged : List Char) (fs : FS) : List (List Char) → MergeResult × FS
  | [] => (MergeResult.ok true, fs)
  | f :: rest =>
    match FS.lookup fs f with
    | none => (MergeResult.sourceNotFound, fs)
    | some content =>
      merge_loop merged
        (FS.insert fs merged ((FS.lookup fs merged).getD [] ++ copy_chunks content)) rest

/-- Model of `merge_files` (`main.rs:221-241`): refuse an existing target with
`Ok(false)`; otherwise create the target empty (`create_new`) and run the
copy loop. The returned filesystem reflects every byte written. -/
def merge_files (fs : FS) (merged_filename : List Char) (files : List (List Char)) :
    MergeResult × FS :=
  if (FS.lookup fs merged_filename).isSome then (MergeResult.ok false, fs)
  else merge_loop merged_filename (FS.insert fs merged_filename []) files

/-- Concatenation of a list of byte lists (declaration-order contents). -/
def concatAll : List (List Nat) → List Nat
  | [] => []
  | l :: ls => l ++ concatAll ls

/-! ## Helper lemmas -/

theorem takeWhile_digits_all (d : List Char) (h : d.all Char.isDigit = true) :
    d.takeWhile Char.isDigit = d := by
  induction d with
  | nil => rfl
  | cons c cs ih =>
    simp only [List.all_cons, Bool.and_eq_true] at h
    simp [List.takeWhile_cons, h.1, ih h.2]

theorem takeWhile_digits_colon (d r : List Char) (h : d.all Char.isDigit = true) :
    (d ++ ':' :: r).takeWhile Char.isDigit = d ∧
      (d ++ ':' :: r).dropWhile Char.isDigit = ':' :: r := by
  induction d with
  | nil =>
    constructor
    · simp [List.takeWhile_cons]
    · simp [List.dropWhile_cons]
  | cons c cs ih =>
    simp only [List.all_cons, Bool.and_eq_true] at h
    obtain ⟨ih1, ih2⟩ := ih h.2
    constructor
    · simp [List.takeWhile_cons, h.1, ih1]
    · simp [List.dropWhile_cons, h.1, ih2]

theorem parseU32_some_facts {l : List Char} {v : Nat} (h : parseU32 l = some v) :
    l ≠ [] ∧ l.all Char.isDigit = true ∧ digitsToNat l = v ∧ v ≤ U32_MAX := by
  unfold parseU32 at h
  split at h
  · exact absurd h (by simp)
  · split at h
    · split at h
      · exact ⟨by assumption, by assumption, by injection h, by injection h with h2; omega⟩
      · exact absurd h (by simp)
    · exact absurd h (by simp)

theorem matchTimestampAt_exact (d1 d2 d3 : List Char)
    (h1 : d1 ≠ []) (ha1 : d1.all Char.isDigit = true)
    (h2 : d2 ≠ []) (ha2 : d2.all Char.isDigit = true)
    (h3 : d3 ≠ []) (ha3 : d3.all Char.isDigit = true) :
    matchTimestampAt (d1 ++ ':' :: (d2 ++ ':' :: d3)) = some (d1, d2, d3) := by
  obtain ⟨t1, e1⟩ := takeWhile_digits_colon d1 (d2 ++ ':' :: d3) ha1
  obtain ⟨t2, e2⟩ := takeWhile_digits_colon d2 d3 ha2
  simp only [matchTimestampAt]
  rw [t1, e1, if_neg h1, List.head?_cons, if_pos rfl, List.tail_cons, t2, e2, if_neg h2,
    List.head?_cons, if_pos rfl, List.tail_cons, takeWhile_digits_all d3 ha3, if_neg h3]

theorem searchTimestamp_of_matchAt {l : List Char}
    {g : List Char × List Char × List Char}
    (hne : l ≠ []) (h : matchTimestampAt l = some g) :
    searchTimestamp l = some g := by
  cases l with
  | nil => exact absurd rfl hne
  | cons c rest => simp [searchTimestamp, h]

/-! ## Claim theorems: Timestamp Converter -/

/-- Claim C1 (amended): for every timestamp string of the lexical form
`minutes:seconds:frames` whose fields each parse as `u32` and whose
mathematical value `frames + seconds*75 + minutes*60*75` fits in `u32`,
`cuestamp_to_sectors` returns exactly that value. (The original claim,
without the fit condition, fails: the `u32` arithmetic wraps, see the
counterexample.) -/
theorem cuestamp_exact_within_range (d1 d2 d3 : List Char) (m sec fr : Nat)
    (h1 : parseU32 d1 = some m) (h2 : parseU32 d2 = some sec) (h3 : parseU32 d3 = some fr)
    (hsum : fr + sec * 75 + m * 60 * 75 < 4294967296) :
    cuestamp_to_sectors (d1 ++ ':' :: (d2 ++ ':' :: d3)) =
      Except.ok (fr + sec * 75 + m * 60 * 75) := by
  obtain ⟨hn1, hd1, _, _⟩ := parseU32_some_facts h1
  obtain ⟨hn2, hd2, _, _⟩ := parseU32_some_facts h2
  obtain ⟨hn3, hd3, _, _⟩ := parseU32_some_facts h3
  have hm := matchTimestampAt_exact d1 d2 d3 hn1 hd1 hn2 hd2 hn3 hd3
  have hne : d1 ++ ':' :: (d2 ++ ':' :: d3) ≠ [] := by
    cases d1 with
    | nil => exact absurd rfl hn1
    | cons c cs => simp
  have hs := searchTimestamp_of_matchAt hne hm
  simp only [cuestamp_to_sectors, hs, h1, h2, h3]
  unfold u32add u32mul U32_MOD
  congr 1
  omega

/-- Witness for C1 at the example from the spec, `"02:15:37"`, which yields
`2*60*75 + 15*75 + 37 = 10162`. -/
theorem cuestamp_exact_within_range_witness :
    cuestamp_to_sectors "02:15:37".data = Except.ok 10162 := by
  have h := cuestamp_exact_within_range "02".data "15".data "37".data 2 15 37 rfl rfl rfl
    (by norm_num)
  exact h

/-- Counterexample to claim C1 as stated: `"1000000:00:00"` has the lexical
form `mm:ss:ff` with non-negative integer fields, but the converter returns
the value wrapped modulo `2^32`, not `1000000*60*75 = 4500000000`. -/
theorem cuestamp_wraps_counterexample :
    cuestamp_to_sectors "1000000:00:00".data = Except.ok 205032704 ∧
      205032704 ≠ 0 + 0 * 75 + 1000000 * 60 * 75 :=
  ⟨rfl, by norm_num⟩

/-- Claim C5: a string in which the pattern `(\d+):(\d+):(\d+)` finds no
match, or whose matched fields fail to parse as `u32`, makes
`cuestamp_to_sectors` fail with an error (the `MalformedTimestamp`
condition) rather than return a value. -/
theorem cuestamp_rejects (s : List Char)
    (h : searchTimestamp s = none ∨
      ∃ d1 d2 d3, searchTimestamp s = some (d1, d2, d3) ∧
        ((parseU32 d1).isSome = false ∨ (parseU32 d2).isSome = false ∨
          (parseU32 d3).isSome = false)) :
    ∃ e, cuestamp_to_sectors s = Except.error e := by
  rcases h with h | ⟨d1, d2, d3, hs, hp⟩
  · exact ⟨"Timestamp does not match pattern", by simp only [cuestamp_to_sectors, h]⟩
  · cases hpu1 : parseU32 d1 with
    | none => exact ⟨"Invalid minutes", by simp only [cuestamp_to_sectors, hs, hpu1]⟩
    | some m =>
      cases hpu2 : parseU32 d2 with
      | none => exact ⟨"Invalid seconds", by simp only [cuestamp_to_sectors, hs, hpu1, hpu2]⟩
      | some sec =>
        cases hpu3 : parseU32 d3 with
        | none =>
          exact ⟨"Invalid frames", by simp only [cuestamp_to_sectors, hs, hpu1, hpu2, hpu3]⟩
        | some fr =>
          exfalso
          rcases hp with hp | hp | hp <;> simp [hpu1, hpu2, hpu3] at hp

/-- Witness for C5 at the example from the spec, `"abc"`. -/
theorem cuestamp_rejects_witness :
    ∃ e, cuestamp_to_sectors "abc".data = Except.error e :=
  cuestamp_rejects "abc".data (Or.inl rfl)

/-- Claim C9: `"954438:00:00"` is a well-formed timestamp whose fields all
parse as `u32`, yet `954438*60*75 = 4294971000 ≥ 2^32`, so the returned
sector count is the value wrapped modulo `2^32` (3704), not the
mathematical offset — the overflow is not reported as an error. -/
theorem cuestamp_overflow_wraps :
    cuestamp_to_sectors "954438:00:00".data = Except.ok 3704 ∧
      3704 = (0 + 0 * 75 + 954438 * 60 * 75) % 4294967296 ∧
      0 + 0 * 75 + 954438 * 60 * 75 ≠ 3704 :=
  ⟨rfl, by norm_num, by norm_num⟩

/-- Claim C10 (amended): the pattern match is unanchored — for every string
in which `(\d+):(\d+):(\d+)` finds an embedded match whose three captured
fields each parse as `u32`, `cuestamp_to_sectors` succeeds and returns the
offset computed (in wrapping `u32` arithmetic) from that first match.
(The original claim, for every string merely containing an embedded match,
fails when a captured field overflows `u32`: see the counterexample.) -/
theorem cuestamp_first_embedded_match (s d1 d2 d3 : List Char) (m sec fr : Nat)
    (h : searchTimestamp s = some (d1, d2, d3))
    (h1 : parseU32 d1 = some m) (h2 : parseU32 d2 = some sec) (h3 : parseU32 d3 = some fr) :
    cuestamp_to_sectors s =
      Except.ok (u32add (u32add fr (u32mul sec 75)) (u32mul (u32mul m 60) 75)) := by
  simp only [cuestamp_to_sectors, h, h1, h2, h3]

/-- Witness for C10 at `"xx12:34:56yy"`: the first embedded match is
`12:34:56`, giving `56 + 34*75 + 12*60*75 = 56606`. -/
theorem cuestamp_first_embedded_match_witness :
    cuestamp_to_sectors "xx12:34:56yy".data = Except.ok 56606 := by
  have h := cuestamp_first_embedded_match "xx12:34:56yy".data
    "12".data "34".data "56".data 12 34 56 rfl rfl rfl rfl
  exact h

/-- Counterexample to claim C10 as stated: `"4294967296:0:0"` contains an
embedded `digits:digits:digits` substring, yet the converter fails
(the minutes field overflows `u32`) instead of succeeding. -/
theorem cuestamp_embedded_match_can_fail :
    searchTimestamp "4294967296:0:0".data =
        some ("4294967296".data, "0".data, "0".data) ∧
      cuestamp_to_sectors "4294967296:0:0".data = Except.error "Invalid minutes" :=
  ⟨rfl, rfl⟩

/-! ## Claim theorems: CUE parser -/

theorem updateLast_eq_self {α : Type} (l : List α) (f : α → α)
    (h : ∀ a, l.getLast? = some a → f a = a) : updateLast l f = l := by
  induction l with
  | nil => rfl
  | cons a rest ih =>
    cases rest with
    | nil =>
      simp only [updateLast]
      rw [h a (by simp)]
    | cons b rest2 =>
      simp only [updateLast]
      rw [ih fun a2 ha2 => h a2 (by rw [List.getLast?_cons_cons]; exact ha2)]

theorem parseLine_isOk (fs : FS) (p : List Char) (acc : List BinFile) (l : List Char) :
    isOkB (parseLine fs p acc l) = lineOk fs p l := by
  unfold parseLine lineOk
  cases hf : file_captures l with
  | some bin => cases hb : BinFile.new fs (parentJoin p bin) <;> simp [isOkB, hb]
  | none =>
    cases ht : track_captures l with
    | some pr =>
      obtain ⟨num, ty⟩ := pr
      cases hp : parseU32 num <;> simp [isOkB, hp]
    | none =>
      cases hi : index_captures l with
      | some pr =>
        obtain ⟨num, stamp⟩ := pr
        cases hp : parseU32 num with
        | none => simp [isOkB, hp]
        | some n => cases hc : cuestamp_to_sectors stamp <;> simp [isOkB, hp, hc]
      | none => simp [isOkB]

theorem parseLines_append (fs : FS) (p : List Char) :
    ∀ (xs ys : List (List Char)) (acc : List BinFile),
      parseLines fs p (xs ++ ys) acc =
        match parseLines fs p xs acc with
        | Except.error e => Except.error e
        | Except.ok acc2 => parseLines fs p ys acc2 := by
  intro xs
  induction xs with
  | nil => intro ys acc; rfl
  | cons l rest ih =>
    intro ys acc
    simp only [List.cons_append, parseLines]
    cases parseLine fs p acc l with
    | error e => rfl
    | ok acc2 => exact ih ys acc2

/-- Claim C3 (amended): once the CUE sheet is open and read, the parse
succeeds if and only if every line is panic-free: each matched FILE
directive names an existing bin file, each matched TRACK/INDEX number fits
in `u32`, and each matched INDEX timestamp converts. Lines matching no
directive are always panic-free and are silently ignored; no diagnostics of
any kind are recorded (the result is only the list of bin files). (The
original claim — the parse never fails on a malformed directive line and
records diagnostics — fails: see the counterexample, where one bad line
aborts the whole parse; no diagnostic mechanism exists in the code.) -/
theorem parse_ok_iff_all_lines_ok (fs : FS) (p : List Char) (lines : List (List Char)) :
    isOkB (get_bin_from_cue fs p lines) = lines.all (lineOk fs p) := by
  unfold get_bin_from_cue
  suffices h : ∀ acc, isOkB (parseLines fs p lines acc) = lines.all (lineOk fs p) from h []
  induction lines with
  | nil => intro acc; simp [parseLines, isOkB]
  | cons l rest ih =>
    intro acc
    simp only [parseLines, List.all_cons]
    cases hl : parseLine fs p acc l with
    | error e =>
      have hok := parseLine_isOk fs p acc l
      rw [hl] at hok
      simp only [isOkB] at hok ⊢
      rw [← hok, Bool.false_and]
    | ok acc2 =>
      have hok := parseLine_isOk fs p acc l
      rw [hl] at hok
      simp only [isOkB] at hok
      rw [← hok, Bool.true_and]
      exact ih acc2

/-- Counterexample to claim C3 as stated: a sheet whose single line is the
malformed directive `TRACK 4294967296 AUDIO` (the track number does not fit
in `u32`) makes the whole parse abort with a panic, instead of being
recorded as a diagnostic. -/
theorem parse_fails_on_one_bad_line :
    get_bin_from_cue [] "game.cue".data ["TRACK 4294967296 AUDIO".data] =
      Except.error "panicked: track number unwrapped on a failed u32 parse" := rfl

/-- Claim C4: the code contradicts the claim. On a CUE sheet whose FILE
directive names a non-existent bin file, `BinFile::new(..).unwrap()`
(`main.rs:124`) panics: the whole parse aborts, nothing is recorded as
missing, and the subsequent TRACK/INDEX lines are never processed. -/
theorem parse_aborts_on_missing_bin_file :
    get_bin_from_cue [] "d/game.cue".data
        ["FILE \"missing.bin\" BINARY".data, "TRACK 01 MODE1/2352".data,
          "INDEX 01 00:00:00".data] =
      Except.error "panicked: BinFile::new unwrapped on a missing bin file" := rfl

/-- Claim C8 (amended): a TRACK line appearing while no FILE entry is open,
or an INDEX line appearing while no track entry is open (provided the line
parses without panicking), is skipped: the parse result is identical to
that of the same sheet without the line — parsing continues, subsequent
valid lines are kept, but no `OrphanTrack`/`OrphanIndex` diagnostic is
recorded anywhere. (The original claim fails: the result records no
diagnostic, see the counterexample.) -/
theorem orphan_lines_are_skipped (fs : FS) (p : List Char)
    (pre : List (List Char)) (l : List Char) (rest : List (List Char)) (acc : List BinFile)
    (hpre : parseLines fs p pre [] = Except.ok acc)
    (hfile : file_captures l = none)
    (hcase :
      (∃ d ty, track_captures l = some (d, ty) ∧ (parseU32 d).isSome = true ∧ acc = []) ∨
      (track_captures l = none ∧
        ∃ d st n off, index_captures l = some (d, st) ∧ parseU32 d = some n ∧
          cuestamp_to_sectors st = Except.ok off ∧ noOpenTrack acc = true)) :
    get_bin_from_cue fs p (pre ++ l :: rest) = get_bin_from_cue fs p (pre ++ rest) := by
  have hline : parseLine fs p acc l = Except.ok acc := by
    rcases hcase with ⟨d, ty, ht, hn, hacc⟩ | ⟨htn, d, st, n, off, hi, hn, hc, hno⟩
    · obtain ⟨nv, hnv⟩ := Option.isSome_iff_exists.mp hn
      subst hacc
      simp only [parseLine, hfile, ht, hnv]
      rfl
    · simp only [parseLine, hfile, htn, hi, hn, hc]
      congr 1
      apply updateLast_eq_self
      intro bf hbf
      have hemp : bf.tracks.isEmpty = true := by
        unfold noOpenTrack at hno
        rw [hbf] at hno
        exact hno
      have htr : bf.tracks = [] := by
        cases hbt : bf.tracks with
        | nil => rfl
        | cons x xs => rw [hbt] at hemp; simp at hemp
      cases bf with
      | mk fn tks sz =>
        simp only at htr
        subst htr
        rfl
  unfold get_bin_from_cue
  rw [parseLines_append, parseLines_append, hpre]
  show parseLines fs p (l :: rest) acc = parseLines fs p rest acc
  simp only [parseLines, hline]

/-- Witness for C8: a sheet starting with an orphan `TRACK 01 AUDIO` line
parses to exactly the same result as the sheet without it. -/
theorem orphan_lines_are_skipped_witness :
    get_bin_from_cue [("d/a.bin".data, [0])] "d/g.cue".data
        ["TRACK 01 AUDIO".data, "FILE \"a.bin\" BINARY".data] =
      get_bin_from_cue [("d/a.bin".data, [0])] "d/g.cue".data
        ["FILE \"a.bin\" BINARY".data] :=
  orphan_lines_are_skipped [("d/a.bin".data, [0])] "d/g.cue".data []
    "TRACK 01 AUDIO".data ["FILE \"a.bin\" BINARY".data] [] rfl rfl
    (Or.inl ⟨"01".data, "AUDIO".data, rfl, rfl, rfl⟩)

/-- Counterexample to claim C8 as stated: parsing a sheet whose only line is
an orphan TRACK yields `ok []`, indistinguishable from parsing the empty
sheet — no `OrphanTrack` diagnostic is recorded in the result (the result
type carries no diagnostics at all). -/
theorem orphan_track_leaves_no_record :
    get_bin_from_cue [] "g.cue".data ["TRACK 02 AUDIO".data] = Except.ok [] ∧
      get_bin_from_cue [] "g.cue".data ["TRACK 02 AUDIO".data] =
        get_bin_from_cue [] "g.cue".data [] :=
  ⟨rfl, rfl⟩

/-! ## Claim theorems: Merger -/

theorem copy_chunks_eq (l : List Nat) : copy_chunks l = l := by
  induction l using copy_chunks.induct with
  | case1 => rw [copy_chunks]
  | case2 b rest ih =>
    rw [copy_chunks, ih, List.take_append_drop]

theorem lookup_insert_self (fs : FS) (p : List Char) (c : List Nat) :
    FS.lookup (FS.insert fs p c) p = some c := by
  show (if p = p then some c else FS.lookup fs p) = some c
  rw [if_pos rfl]

theorem lookup_insert_ne (fs : FS) (p q : List Char) (c : List Nat) (h : q ≠ p) :
    FS.lookup (FS.insert fs p c) q = FS.lookup fs q := by
  show (if p = q then some c else FS.lookup fs q) = FS.lookup fs q
  rw [if_neg fun e => h e.symm]

theorem merge_loop_all_found (t : List Char) (srcs : List (List Char)) :
    ∀ (fs : FS) (w : List Nat),
      FS.lookup fs t = some w →
      (∀ f ∈ srcs, f ≠ t ∧ (FS.lookup fs f).isSome = true) →
      (merge_loop t fs srcs).1 = MergeResult.ok true ∧
        FS.lookup (merge_loop t fs srcs).2 t =
          some (w ++ concatAll (srcs.map fun f => (FS.lookup fs f).getD [])) := by
  induction srcs with
  | nil =>
    intro fs w hw _
    simp [merge_loop, concatAll, hw]
  | cons f rest ih =>
    intro fs w hw hall
    obtain ⟨hft, hfs⟩ := hall f (by simp)
    obtain ⟨c, hc⟩ := Option.isSome_iff_exists.mp hfs
    have hw2 : FS.lookup (FS.insert fs t ((FS.lookup fs t).getD [] ++ copy_chunks c)) t =
        some (w ++ c) := by
      rw [lookup_insert_self, hw]
      simp [copy_chunks_eq]
    have hall2 : ∀ g ∈ rest, g ≠ t ∧
        (FS.lookup (FS.insert fs t ((FS.lookup fs t).getD [] ++ copy_chunks c)) g).isSome
          = true := by
      intro g hg
      obtain ⟨hgt, hgs⟩ := hall g (by simp [hg])
      exact ⟨hgt, by rw [lookup_insert_ne _ _ _ _ hgt]; exact hgs⟩
    have ihr := ih _ (w ++ c) hw2 hall2
    constructor
    · simp only [merge_loop, hc]
      exact ihr.1
    · simp only [merge_loop, hc]
      rw [ihr.2]
      congr 1
      have hmap : rest.map
            (fun g => (FS.lookup (FS.insert fs t ((FS.lookup fs t).getD []
              ++ copy_chunks c)) g).getD []) =
          rest.map fun g => (FS.lookup fs g).getD [] := by
        apply List.map_congr_left
        intro g hg
        rw [lookup_insert_ne _ _ _ _ (hall g (by simp [hg])).1]
      rw [hmap]
      simp [concatAll, hc, List.append_assoc]

theorem merge_loop_missing (t bad : List Char) (tail : List (List Char)) :
    ∀ (pre : List (List Char)) (fs : FS) (w : List Nat),
      FS.lookup fs t = some w →
      (∀ f ∈ pre, f ≠ t ∧ (FS.lookup fs f).isSome = true) →
      FS.lookup fs bad = none → bad ≠ t →
      (merge_loop t fs (pre ++ bad :: tail)).1 = MergeResult.sourceNotFound ∧
        FS.lookup (merge_loop t fs (pre ++ bad :: tail)).2 t =
          some (w ++ concatAll (pre.map fun f => (FS.lookup fs f).getD [])) := by
  intro pre
  induction pre with
  | nil =>
    intro fs w hw _ hbad _
    simp [merge_loop, hbad, concatAll, hw]
  | cons f rest ih =>
    intro fs w hw hall hbad hbt
    obtain ⟨hft, hfs⟩ := hall f (by simp)
    obtain ⟨c, hc⟩ := Option.isSome_iff_exists.mp hfs
    have hw2 : FS.lookup (FS.insert fs t ((FS.lookup fs t).getD [] ++ copy_chunks c)) t =
        some (w ++ c) := by
      rw [lookup_insert_self, hw]
      simp [copy_chunks_eq]
    have hall2 : ∀ g ∈ rest, g ≠ t ∧
        (FS.lookup (FS.insert fs t ((FS.lookup fs t).getD [] ++ copy_chunks c)) g).isSome
          = true := by
      intro g hg
      obtain ⟨hgt, hgs⟩ := hall g (by simp [hg])
      exact ⟨hgt, by rw [lookup_insert_ne _ _ _ _ hgt]; exact hgs⟩
    have hbad2 : FS.lookup (FS.insert fs t ((FS.lookup fs t).getD [] ++ copy_chunks c)) bad
        = none := by
      rw [lookup_insert_ne _ _ _ _ hbt]
      exact hbad
    have ihr := ih _ (w ++ c) hw2 hall2 hbad2 hbt
    constructor
    · simp only [List.cons_append, merge_loop, hc, List.append_eq]
      exact ihr.1
    · simp only [List.cons_append, merge_loop, hc, List.append_eq]
      rw [ihr.2]
      congr 1
      have hmap : rest.map
            (fun g => (FS.lookup (FS.insert fs t ((FS.lookup fs t).getD []
              ++ copy_chunks c)) g).getD []) =
          rest.map fun g => (FS.lookup fs g).getD [] := by
        apply List.map_congr_left
        intro g hg
        rw [lookup_insert_ne _ _ _ _ (hall g (by simp [hg])).1]
      rw [hmap]
      simp [concatAll, hc, List.append_assoc]

/-- Claim C2: merging an ordered sequence of existing sources into a fresh
target succeeds (`Ok(true)`) and the bytes of the target are exactly the
concatenation of the source contents in the given order; in particular,
for two sources the target is the N bytes of the first followed by the
M bytes of the second. -/
theorem merge_files_concatenates (fs : FS) (t : List Char) (srcs : List (List Char))
    (hfresh : FS.lookup fs t = none)
    (hall : ∀ f ∈ srcs, (FS.lookup fs f).isSome = true) :
    (merge_files fs t srcs).1 = MergeResult.ok true ∧
      FS.lookup (merge_files fs t srcs).2 t =
        some (concatAll (srcs.map fun f => (FS.lookup fs f).getD [])) := by
  have hne : ∀ f ∈ srcs, f ≠ t := by
    intro f hf e
    have := hall f hf
    rw [e, hfresh] at this
    simp at this
  have h0 : FS.lookup (FS.insert fs t []) t = some [] := lookup_insert_self fs t []
  have hall2 : ∀ f ∈ srcs, f ≠ t ∧ (FS.lookup (FS.insert fs t []) f).isSome = true := by
    intro f hf
    refine ⟨hne f hf, ?_⟩
    rw [lookup_insert_ne _ _ _ _ (hne f hf)]
    exact hall f hf
  have h := merge_loop_all_found t srcs (FS.insert fs t []) [] h0 hall2
  have hmap : srcs.map (fun f => (FS.lookup (FS.insert fs t []) f).getD []) =
      srcs.map fun f => (FS.lookup fs f).getD [] := by
    apply List.map_congr_left
    intro f hf
    rw [lookup_insert_ne _ _ _ _ (hne f hf)]
  unfold merge_files
  rw [hfresh]
  simp only [Option.isSome_none, Bool.false_eq_true, if_false]
  rw [hmap] at h
  simpa using h

/-- Witness for C2: merging `a.bin` (2 bytes) and `b.bin` (1 byte) into a
fresh `out.bin` yields `Ok(true)` and target contents `[1, 2] ++ [3]`. -/
theorem merge_files_concatenates_witness :
    (merge_files [("a.bin".data, [1, 2]), ("b.bin".data, [3])] "out.bin".data
        ["a.bin".data, "b.bin".data]).1 = MergeResult.ok true ∧
      FS.lookup (merge_files [("a.bin".data, [1, 2]), ("b.bin".data, [3])] "out.bin".data
          ["a.bin".data, "b.bin".data]).2 "out.bin".data = some [1, 2, 3] := by
  have h := merge_files_concatenates [("a.bin".data, [1, 2]), ("b.bin".data, [3])]
    "out.bin".data ["a.bin".data, "b.bin".data] rfl (by decide)
  exact ⟨h.1, h.2.trans (by decide)⟩

/-- Claim C6: merging into a target path that already exists refuses
(`Ok(false)`, the `TargetAlreadyExists` condition), writes nothing, and
leaves the filesystem — in particular the contents of the target — unchanged. -/
theorem merge_files_refuses_existing_target (fs : FS) (t : List Char) (c : List Nat)
    (files : List (List Char)) (h : FS.lookup fs t = some c) :
    merge_files fs t files = (MergeResult.ok false, fs) := by
  unfold merge_files
  rw [h]
  rfl

/-- Witness for C6: a pre-existing `out.bin` with contents `[9]` is refused
and keeps its contents. -/
theorem merge_files_refuses_existing_target_witness :
    merge_files [("out.bin".data, [9]), ("a.bin".data, [1])] "out.bin".data ["a.bin".data] =
      (MergeResult.ok false, [("out.bin".data, [9]), ("a.bin".data, [1])]) :=
  merge_files_refuses_existing_target _ _ [9] _ rfl

/-- Claim C7: if a listed source does not exist when the merge reaches it,
the merge fails with the propagated not-found error (`SourceNotFound`), and
every byte already copied from the sources before the failing one remains
in the (incomplete) target, which is left in place. -/
theorem merge_files_source_missing (fs : FS) (t bad : List Char)
    (pre tail : List (List Char))
    (hfresh : FS.lookup fs t = none)
    (hpre : ∀ f ∈ pre, (FS.lookup fs f).isSome = true)
    (hbad : FS.lookup fs bad = none) (hbt : bad ≠ t) :
    (merge_files fs t (pre ++ bad :: tail)).1 = MergeResult.sourceNotFound ∧
      FS.lookup (merge_files fs t (pre ++ bad :: tail)).2 t =
        some (concatAll (pre.map fun f => (FS.lookup fs f).getD [])) := by
  have hne : ∀ f ∈ pre, f ≠ t := by
    intro f hf e
    have := hpre f hf
    rw [e, hfresh] at this
    simp at this
  have h0 : FS.lookup (FS.insert fs t []) t = some [] := lookup_insert_self fs t []
  have hall2 : ∀ f ∈ pre, f ≠ t ∧ (FS.lookup (FS.insert fs t []) f).isSome = true := by
    intro f hf
    refine ⟨hne f hf, ?_⟩
    rw [lookup_insert_ne _ _ _ _ (hne f hf)]
    exact hpre f hf
  have hbad2 : FS.lookup (FS.insert fs t []) bad = none := by
    rw [lookup_insert_ne _ _ _ _ hbt]
    exact hbad
  have h := merge_loop_missing t bad tail pre (FS.insert fs t []) [] h0 hall2 hbad2 hbt
  have hmap : pre.map (fun f => (FS.lookup (FS.insert fs t []) f).getD []) =
      pre.map fun f => (FS.lookup fs f).getD [] := by
    apply List.map_congr_left
    intro f hf
    rw [lookup_insert_ne _ _ _ _ (hne f hf)]
  unfold merge_files
  rw [hfresh]
  simp only [Option.isSome_none, Bool.false_eq_true, if_false]
  rw [hmap] at h
  simpa using h

/-- Witness for C7: with `c.bin` absent, merging `[a.bin, c.bin, b.bin]`
into a fresh `out.bin` fails with `SourceNotFound` and the target holds
exactly the bytes of `a.bin`. -/
theorem merge_files_source_missing_witness :
    (merge_files [("a.bin".data, [1, 2]), ("b.bin".data, [3])] "out.bin".data
        ["a.bin".data, "c.bin".data, "b.bin".data]).1 = MergeResult.sourceNotFound ∧
      FS.lookup (merge_files [("a.bin".data, [1, 2]), ("b.bin".data, [3])] "out.bin".data
          ["a.bin".data, "c.bin".data, "b.bin".data]).2 "out.bin".data = some [1, 2] := by
  have h := merge_files_source_missing [("a.bin".data, [1, 2]), ("b.bin".data, [3])]
    "out.bin".data "c.bin".data ["a.bin".data] ["b.bin".data] rfl (by decide) rfl
    (by decide)
  exact ⟨h.1, h.2.trans (by decide)⟩

end Binmerge
